import Mathlib

/-!
Verification of the `the_real_script` pitch-class engine
(`src/the_real_script/utils.py` together with the tables of
`src/the_real_script/constants.py`).

The Python code is embedded shallowly: numpy integer arrays become
`List Int`, Python `%` becomes `Int` `%` (both give a non-negative
result for a positive modulus), and code that can raise becomes
`Except PyError`.  Python evaluation order (first raised exception
wins) is preserved by the order of the monadic steps.
-/

namespace TheRealScript

/-- The kinds of exception the embedded code can raise. -/
inductive PyError where
  | typeError (msg : String)
  | valueError (msg : String)
  | keyError (key : String)
  | indexError
  deriving DecidableEq, Repr

/-- Result of running a piece of embedded Python code. -/
abbrev Py (α : Type) := Except PyError α

deriving instance DecidableEq for Except

/-- Table `constants.NOTES`. -/
def NOTES : List String :=
  ["C", "Db", "D", "Eb", "E", "F", "F#", "G", "Ab", "A", "Bb", "B"]

/-- Table `constants.INTERVALS`. -/
def INTERVALS : List String :=
  ["P1", "m2", "M2", "m3", "M3", "P4", "TT", "P5", "m6", "M6", "m7", "M7", "P8"]

/-- Table `constants.DEGREES`. -/
def DEGREES : List String :=
  ["I", "II", "III", "IV", "V", "VI", "VII"]

/-- Table `constants.C_SCALES`, imported by `utils.py` under the name
`C_BASE_SCALES`; indexing with an unknown key raises `KeyError`. -/
def C_BASE_SCALES (key : String) : Py (List Int) :=
  if key = "cromatic" then .ok [0, 1, 2, 3, 4, 5, 6, 7, 8, 9, 10, 11]
  else if key = "diatonic" then .ok [0, 2, 4, 5, 7, 9, 11]
  else if key = "melodic minor" then .ok [0, 2, 3, 5, 7, 9, 11]
  else if key = "harmonic minor" then .ok [0, 2, 3, 5, 7, 8, 11]
  else .error (.keyError key)

/-- Table `constants.PITCHSET_NAMES`: the inversion of the
`PITCHSET_INTERVALS` table, mapping an interval shape to the
quality suffix of the set name. -/
def PITCHSET_NAMES : List (List Int × String) :=
  [([4, 3], ""), ([3, 4], "m"),
   ([4, 3, 4], "maj7"), ([3, 4, 3], "m7"), ([4, 3, 3], "7"), ([3, 3, 4], "m7b5"),
   ([3, 4, 4], "m7(maj7)"), ([4, 4, 3], "maj7(#5)"), ([3, 3, 3], "dim"),
   ([1, 1, 1, 1, 1, 1, 1, 1, 1, 1, 1], " cromatic"),
   ([2, 2, 1, 2, 2, 2], " ionian"), ([2, 1, 2, 2, 2, 1], " dorian"),
   ([1, 2, 2, 2, 1, 2], " phrygian"), ([2, 2, 2, 1, 2, 2], " lydian"),
   ([2, 2, 1, 2, 2, 1], " mixolydian"), ([2, 1, 2, 2, 1, 2], " aeolian"),
   ([1, 2, 2, 1, 2, 2], " locrian"),
   ([2, 1, 2, 2, 1, 3], " harmonic minor"), ([2, 1, 2, 2, 2, 2], " melodic minor")]

/-- Dictionary lookup in `PITCHSET_NAMES` (first matching key wins;
the keys are pairwise distinct). -/
def pitchsetNameLookup (iv : List Int) : Option String :=
  (PITCHSET_NAMES.find? (fun e => e.1 = iv)).map (fun e => e.2)

/-- Python indexing `xs[i]` on a list/tuple/1-d array: a negative
index counts from the end; out of range raises `IndexError`. -/
def pyIndexGet {α : Type} (xs : List α) (i : Int) : Py α :=
  let j : Int := if i < 0 then i + xs.length else i
  if h : 0 ≤ j ∧ j.toNat < xs.length then .ok (xs.get ⟨j.toNat, h.2⟩)
  else .error .indexError

/-- Python `tuple.index(x)`: position of the first occurrence, or
`ValueError` when the element is absent. -/
def pyTupleIndex (xs : List String) (x : String) : Py Int :=
  match xs.findIdx? (fun s => s = x) with
  | some n => .ok (n : Int)
  | none => .error (.valueError ("tuple.index(x): x not in tuple"))

/-- Python slice `xs[i:]` (start clamped into range). -/
def pySliceFrom {α : Type} (xs : List α) (i : Int) : List α :=
  if 0 ≤ i then xs.drop i.toNat else xs.drop (xs.length - i.natAbs)

/-- Python slice `xs[:i]` (stop clamped into range). -/
def pySliceTo {α : Type} (xs : List α) (i : Int) : List α :=
  if 0 ≤ i then xs.take i.toNat else xs.take (xs.length - i.natAbs)

/-- Function `utils.invert`: the musical inversion of `values`, i.e. the
cyclic rotation `np.hstack([values[inversion:], values[:inversion]])`,
guarded by `np.abs(inversion) > len(values) - 1`. -/
def invert (values : List Int) (inversion : Int) : Py (List Int) :=
  if (inversion.natAbs : Int) > (values.length : Int) - 1 then
    .error (.valueError ("Inversion out of range"))
  else
    .ok (pySliceFrom values inversion ++ pySliceTo values inversion)

/-- Function `utils.calculate_intervals`: the ascending semitone distance of
each consecutive pair, `[(next - note) % 12 for note, next in
zip(values, values[1:])]`. -/
def calculate_intervals (values : List Int) : List Int :=
  (values.zip values.tail).map (fun p => (p.2 - p.1) % 12)

/-- Running sums of a list starting from `acc` (`np.cumsum` shifted
by an initial accumulator). -/
def cumsumFrom (acc : Int) : List Int → List Int
  | [] => []
  | x :: xs => (acc + x) :: cumsumFrom (acc + x) xs

/-- Embedding of `np.cumsum` on a list of integers. -/
def cumsum (xs : List Int) : List Int := cumsumFrom 0 xs

/-- A Python list comprehension `[f(x) for x in xs]` over fallible
`f`: evaluated left to right, the first exception propagates. -/
def mapPy {α β : Type} (f : α → Py β) : List α → Py (List β)
  | [] => .ok []
  | x :: xs =>
    match f x with
    | .error e => .error e
    | .ok y =>
      match mapPy f xs with
      | .error e => .error e
      | .ok ys => .ok (y :: ys)

/-- Python `repr` of a list of strings (used by the f-string fallback
`f"Unknown set: {self.notes}"`). -/
def pyStrListRepr (xs : List String) : String :=
  "[" ++ String.intercalate (", ") (xs.map (fun s => "\x27" ++ s ++ "\x27")) ++ "]"

/-- The `PitchSet` attributes set by `PitchSet.__init__`
(`structure_names` embeds the attribute called `structure` in the
source, a Lean keyword). -/
structure PitchSet where
  values : List Int
  interval_values : List Int
  structure_values : List Int
  tonic : String
  notes : List String
  name : String
  intervals : List String
  structure_names : List String
  third : String
  deriving DecidableEq, Repr

/-- Method `PitchSet.init_name`: tonic name plus the quality suffix looked
up from the interval shape, falling back to the "unknown set" string
on a `KeyError`. -/
def PitchSet.init_name (tonic : String) (interval_values : List Int)
    (notes : List String) : String :=
  match pitchsetNameLookup interval_values with
  | some suffix => tonic ++ suffix
  | none => "Unknown set: " ++ pyStrListRepr notes

/-- Method `PitchSet.init_third`: `3 in structure_values` gives "minor",
else `4 in structure_values` gives "major", else "suspended". -/
def PitchSet.init_third (structure_values : List Int) : String :=
  if 3 ∈ structure_values then "minor"
  else if 4 ∈ structure_values then "major"
  else "suspended"

/-- The body of `PitchSet.__init__` once the input has been reduced
to a sequence of integers, following the source line by line:
`values = np.array(input) % 12`; `interval_values`;
`structure_values = np.hstack([0, np.cumsum(interval_values)])`;
`tonic = NOTES[values[0]]` (an `IndexError` on an empty input);
`notes`; `name`; `intervals`; `structure`; `third`.
When `interval_values` is the empty tuple, `np.cumsum(())` produces a
float64 array, `np.hstack` promotes the whole `structure_values`
array to float64, and the comprehension `[INTERVALS[i] for i in
self.structure_values]` then raises `TypeError` because a Python list
cannot be indexed by `numpy.float64`. -/
def PitchSet.init (input : List Int) : Py PitchSet :=
  let values := input.map (fun v => v % 12)
  let interval_values := calculate_intervals values
  let structure_values : List Int := 0 :: cumsum interval_values
  match pyIndexGet values 0 with
  | .error e => .error e
  | .ok v0 =>
    match pyIndexGet NOTES v0 with
    | .error e => .error e
    | .ok tonic =>
      match mapPy (fun v => pyIndexGet NOTES v) values with
      | .error e => .error e
      | .ok notes =>
        match mapPy (fun i => pyIndexGet INTERVALS i) interval_values with
        | .error e => .error e
        | .ok intervals =>
          match (if interval_values.isEmpty then
                   (Except.error (PyError.typeError
                     "list indices must be integers or slices, not numpy.float64") :
                     Py (List String))
                 else mapPy (fun i => pyIndexGet INTERVALS i) structure_values) with
          | .error e => .error e
          | .ok structure_names =>
            .ok { values := values, interval_values := interval_values,
                  structure_values := structure_values,
                  tonic := tonic, notes := notes,
                  name := PitchSet.init_name tonic interval_values notes,
                  intervals := intervals, structure_names := structure_names,
                  third := PitchSet.init_third structure_values }

/-- A Python value that may or may not be an integer, as seen by the
element check `isinstance(value, (int, np.int_))`. -/
inductive PyVal where
  | int (n : Int)
  | nonInt (tag : String)
  deriving DecidableEq, Repr

/-- The possible arguments of the `PitchSet` constructor: an `int`, a
`tuple`/`list`/`np.ndarray` (a sequence of Python values), another
`PitchSet`, or an object of any other type. -/
inductive Builder where
  | int (n : Int)
  | seq (xs : List PyVal)
  | pitchset (p : PitchSet)
  | other (tag : String)
  deriving DecidableEq, Repr

/-- Whether a sequence element passes
`isinstance(value, (int, np.int_))`. -/
def PyVal.isInt : PyVal → Bool
  | .int _ => true
  | .nonInt _ => false

/-- The integer payloads of a sequence of Python values. -/
def pyValInts (xs : List PyVal) : List Int :=
  xs.filterMap (fun v => match v with | .int n => some n | .nonInt _ => none)

/-- Constructor `PitchSet.__init__` on the raw argument: the builder-type check,
the scalar-to-singleton and PitchSet-to-values conversions, the
element type check, then the attribute construction `PitchSet.init`. -/
def PitchSet.build : Builder → Py PitchSet
  | .int n => PitchSet.init [n]
  | .seq xs =>
    if xs.all PyVal.isInt then PitchSet.init (pyValInts xs)
    else .error (.typeError ("A PitchSet can only be constructed from integers."))
  | .pitchset p => PitchSet.init p.values
  | .other _ =>
    .error (.typeError
      "Valid object types to build a PitchSet are: (int, tuple, list, numpy.ndarray, PitchSet)")

/-- numpy element-wise combination of two 1-d integer arrays with
shape broadcasting: equal lengths combine pointwise, a length-1 array
broadcasts over the other, anything else raises `ValueError`. -/
def npBroadcast (op : Int → Int → Int) (a b : List Int) : Py (List Int) :=
  match a, b with
  | [x], ys =>
    if ys.length = 1 then .ok (List.zipWith op a ys)
    else .ok (ys.map (fun y => op x y))
  | xs, [y] => .ok (xs.map (fun x => op x y))
  | xs, ys =>
    if xs.length = ys.length then .ok (List.zipWith op xs ys)
    else .error (.valueError ("operands could not be broadcast together"))

/-- Operator `PitchSet.__add__`: `PitchSet(self.values + PitchSet(summand).values)`. -/
def PitchSet.add (p : PitchSet) (summand : Builder) : Py PitchSet :=
  match PitchSet.build summand with
  | .error e => .error e
  | .ok s =>
    match npBroadcast (fun x y => x + y) p.values s.values with
    | .error e => .error e
    | .ok sums => PitchSet.build (.seq (sums.map PyVal.int))

/-- Operator `PitchSet.__sub__`: `PitchSet(self.values - PitchSet(subtrahend).values)`. -/
def PitchSet.sub (p : PitchSet) (subtrahend : Builder) : Py PitchSet :=
  match PitchSet.build subtrahend with
  | .error e => .error e
  | .ok s =>
    match npBroadcast (fun x y => x - y) p.values s.values with
    | .error e => .error e
    | .ok diffs => PitchSet.build (.seq (diffs.map PyVal.int))

/-- Method `PitchSet.invert` (of the class): `PitchSet(invert(self.values, inversion))`. -/
def PitchSet.invertSet (p : PitchSet) (inversion : Int) : Py PitchSet :=
  match invert p.values inversion with
  | .error e => .error e
  | .ok w => PitchSet.build (.seq (w.map PyVal.int))

/-- The `Tonality` attributes set by `Tonality.__init__`. -/
structure Tonality where
  tonic : String
  scale_type : String
  mode : String
  cromatic : PitchSet
  scale : PitchSet
  deriving DecidableEq, Repr

/-- Method `Tonality.init_scale`: rotate the C-rooted base scale template to
the degree of the mode, recompute its consecutive intervals, and
transpose by piling the cumulative intervals on top of the pitch value
of the tonic
(`np.hstack([tonic_value, tonic_value + np.cumsum(interval_values)])`).
For every base scale and mode the rotated template has at least two
entries, so the `np.cumsum` here is an integer array. -/
def Tonality.init_scale (tonic scale_type mode : String) : Py PitchSet :=
  match pyTupleIndex NOTES tonic with
  | .error e => .error e
  | .ok tonic_value =>
    match C_BASE_SCALES scale_type with
    | .error e => .error e
    | .ok base =>
      match pyTupleIndex DEGREES mode with
      | .error e => .error e
      | .ok mode_index =>
        match invert base mode_index with
        | .error e => .error e
        | .ok inversion_values =>
          let interval_values := calculate_intervals inversion_values
          let modal_values :=
            tonic_value :: (cumsum interval_values).map (fun c => tonic_value + c)
          PitchSet.build (.seq (modal_values.map PyVal.int))

/-- Constructor `Tonality.__init__` with all three arguments spelled out (the
source defaults are `scale_type="diatonic"`, `mode="I"`): store the
names, build the `cromatic` set
`PitchSet(invert(C_BASE_SCALES["cromatic"], NOTES.index(tonic)))`,
then build the mode scale. -/
def Tonality.init (tonic scale_type mode : String) : Py Tonality :=
  match pyTupleIndex NOTES tonic with
  | .error e => .error e
  | .ok idx =>
    match C_BASE_SCALES ("cromatic") with
    | .error e => .error e
    | .ok crom_base =>
      match invert crom_base idx with
      | .error e => .error e
      | .ok crom_vals =>
        match PitchSet.build (.seq (crom_vals.map PyVal.int)) with
        | .error e => .error e
        | .ok cromatic =>
          match Tonality.init_scale tonic scale_type mode with
          | .error e => .error e
          | .ok scale =>
            .ok { tonic := tonic, scale_type := scale_type, mode := mode,
                  cromatic := cromatic, scale := scale }

/-- A requested chord degree: a Roman-numeral name or a 1-based
ordinal. -/
inductive Degree where
  | str (s : String)
  | int (n : Int)
  deriving DecidableEq, Repr

/-- Python `str(degree)` as interpolated into `f"Invalid degree: {degree}"`. -/
def degreeRepr : Degree → String
  | .str s => s
  | .int n => toString n

/-- The `degrees` argument of `Tonality.chords`: a lone degree or a
sequence of degrees. -/
inductive DegreesArg where
  | one (d : Degree)
  | many (ds : List Degree)
  deriving DecidableEq, Repr

/-- What `Tonality.chords` returns: the single `PitchSet` itself when
the loop produced exactly one chord, otherwise the list. -/
inductive ChordsResult where
  | single (p : PitchSet)
  | multiple (ps : List PitchSet)
  deriving DecidableEq, Repr

/-- Every second element of a list: the step-2 part of the Python
slice `xs[a : b : 2]`. -/
def everyOther : List Int → List Int
  | [] => []
  | [x] => [x]
  | x :: _ :: rest => x :: everyOther rest

/-- One iteration of the loop in `Tonality.chords`: resolve the
degree to a zero-based value (1-based ordinal minus one, or a
`DEGREES` name lookup), validate it against `range(0, 7)`, slice
`(scale.values * 3)[degree_value : degree_value + 14 : 2]`, crop to
`size` notes, and build the chord `PitchSet`. -/
def Tonality.degreeChord (scale_values : List Int) (size : Int) (degree : Degree) :
    Py PitchSet :=
  match (match degree with
         | .int d => (.ok (d - 1) : Py Int)
         | .str s => pyTupleIndex DEGREES s) with
  | .error e => .error e
  | .ok degree_value =>
    if degree_value < 0 ∨ 7 ≤ degree_value then
      .error (.valueError ("Invalid degree: " ++ degreeRepr degree))
    else
      let three_octaves_scale := scale_values ++ scale_values ++ scale_values
      let seven_note_chord :=
        everyOther ((three_octaves_scale.drop degree_value.toNat).take 14)
      let cropped_chord := pySliceTo seven_note_chord size
      PitchSet.build (.seq (cropped_chord.map PyVal.int))

/-- The `for degree in degrees` loop of `Tonality.chords`, collecting
the chords in request order; the first exception propagates. -/
def Tonality.chordsGo (scale_values : List Int) (size : Int)
    (ds : List Degree) : Py (List PitchSet) :=
  mapPy (Tonality.degreeChord scale_values size) ds

/-- Method `Tonality.chords` (source default `size=4`): wrap a lone degree
into a list, run the loop, and unwrap a length-one result. -/
def Tonality.chords (t : Tonality) (degrees : DegreesArg) (size : Int) :
    Py ChordsResult :=
  let ds := match degrees with
    | .one d => [d]
    | .many l => l
  match Tonality.chordsGo t.scale.values size ds with
  | .error e => .error e
  | .ok chords =>
    match chords with
    | [c] => .ok (ChordsResult.single c)
    | cs => .ok (ChordsResult.multiple cs)

/-- Whether one character list starts with another. -/
def listStarts : List Char → List Char → Bool
  | _, [] => true
  | [], _ :: _ => false
  | a :: as, b :: bs => a = b && listStarts as bs

/-- Whether `needle` occurs as a contiguous run inside `hay`. -/
def listHasSub : List Char → List Char → Bool
  | [], needle => needle.isEmpty
  | a :: as, needle => listStarts (a :: as) needle || listHasSub as needle

/-- Whether the string `needle` occurs inside the string `hay`
(used to express "the error message identifies the offending value"). -/
def strContains (hay needle : String) : Bool :=
  listHasSub hay.toList needle.toList

/-- The `values` of a successfully built `PitchSet`, `none` on an
exception. -/
def valuesOf? (e : Py PitchSet) : Option (List Int) :=
  match e with
  | .ok p => some p.values
  | .error _ => none

/-- The `name` of a successfully built `PitchSet`, `none` on an
exception. -/
def nameOf? (e : Py PitchSet) : Option String :=
  match e with
  | .ok p => some p.name
  | .error _ => none

/-- The `scale.values` of a successfully built `Tonality`, `none` on
an exception. -/
def scaleValuesOf? (e : Py Tonality) : Option (List Int) :=
  match e with
  | .ok t => some t.scale.values
  | .error _ => none

/-- The `values` of a chords call that returned one unwrapped
`PitchSet`, `none` on an exception or on a list result. -/
def singleValuesOf? (e : Py ChordsResult) : Option (List Int) :=
  match e with
  | .ok (.single p) => some p.values
  | _ => none

/-- Whether a chords result is a single unwrapped `PitchSet`. -/
def ChordsResult.isSingle : ChordsResult → Bool
  | .single _ => true
  | .multiple _ => false

/-! ### Sample records used to instantiate theorems at concrete inputs -/

/-- The result of `PitchSet([14, -5])`. -/
def psSampleC1 : PitchSet :=
  { values := [2, 7], interval_values := [5], structure_values := [0, 5],
    tonic := "D", notes := ["D", "G"],
    name := "Unknown set: [\x27D\x27, \x27G\x27]",
    intervals := ["P4"], structure_names := ["P1", "P4"], third := "suspended" }

/-- The result of `PitchSet([0, 1, 6])`. -/
def psSampleC5 : PitchSet :=
  { values := [0, 1, 6], interval_values := [1, 5], structure_values := [0, 1, 6],
    tonic := "C", notes := ["C", "Db", "F#"],
    name := "Unknown set: [\x27C\x27, \x27Db\x27, \x27F#\x27]",
    intervals := ["m2", "P4"], structure_names := ["P1", "m2", "TT"],
    third := "suspended" }

/-- The result of `PitchSet([0, 3, 7])`. -/
def psSampleC7 : PitchSet :=
  { values := [0, 3, 7], interval_values := [3, 4], structure_values := [0, 3, 7],
    tonic := "C", notes := ["C", "Eb", "G"], name := "Cm",
    intervals := ["m3", "M3"], structure_names := ["P1", "m3", "P5"],
    third := "minor" }

/-- The result of `PitchSet([0, 4])`. -/
def psSampleC10 : PitchSet :=
  { values := [0, 4], interval_values := [4], structure_values := [0, 4],
    tonic := "C", notes := ["C", "E"],
    name := "Unknown set: [\x27C\x27, \x27E\x27]",
    intervals := ["M3"], structure_names := ["P1", "M3"], third := "major" }

/-- A throwaway `Tonality` record used only to instantiate a theorem
that holds for every `Tonality`. -/
def tonSampleC8 : Tonality :=
  { tonic := "C", scale_type := "diatonic", mode := "I",
    cromatic := psSampleC10, scale := psSampleC10 }

/-- The scale PitchSet of the sample Tonality used for the C4
witness (the result of `PitchSet([0, 4])`). -/
def psScaleC4 : PitchSet :=
  { values := [0, 4], interval_values := [4], structure_values := [0, 4],
    tonic := "C", notes := ["C", "E"],
    name := "Unknown set: [\x27C\x27, \x27E\x27]",
    intervals := ["M3"], structure_names := ["P1", "M3"], third := "major" }

/-- A sample `Tonality` record used only to instantiate the C4
theorem, which holds for every `Tonality`. -/
def tonSampleC4 : Tonality :=
  { tonic := "C", scale_type := "diatonic", mode := "I",
    cromatic := psScaleC4, scale := psScaleC4 }

/-- The chord that `tonSampleC4.chords("I", size=4)` builds
(`PitchSet([0, 0, 0])`). -/
def psSampleC4 : PitchSet :=
  { values := [0, 0, 0], interval_values := [0, 0],
    structure_values := [0, 0, 0],
    tonic := "C", notes := ["C", "C", "C"],
    name := "Unknown set: [\x27C\x27, \x27C\x27, \x27C\x27]",
    intervals := ["P1", "P1"], structure_names := ["P1", "P1", "P1"],
    third := "suspended" }

/-- The result of `PitchSet([0, 4, 7])`. -/
def psSampleC6 : PitchSet :=
  { values := [0, 4, 7], interval_values := [4, 3], structure_values := [0, 4, 7],
    tonic := "C", notes := ["C", "E", "G"], name := "C",
    intervals := ["M3", "m3"], structure_names := ["P1", "M3", "P5"],
    third := "major" }

/-! ### Arithmetic helper lemmas -/

lemma emod12_nonneg (x : Int) : 0 ≤ x % 12 :=
  Int.emod_nonneg x (by norm_num)

lemma emod12_lt (x : Int) : x % 12 < 12 :=
  Int.emod_lt_of_pos x (by norm_num)

lemma emod12_id {x : Int} (h0 : 0 ≤ x) (h1 : x < 12) : x % 12 = x :=
  Int.emod_eq_of_lt h0 h1

lemma map_emod12_bounds {xs : List Int} {y : Int}
    (h : y ∈ xs.map (fun v => v % 12)) : 0 ≤ y ∧ y < 12 := by
  obtain ⟨x, _, rfl⟩ := List.mem_map.mp h
  exact ⟨emod12_nonneg x, emod12_lt x⟩

lemma map_emod12_of_bounds {xs : List Int}
    (h : ∀ x ∈ xs, 0 ≤ x ∧ x < 12) : xs.map (fun v => v % 12) = xs := by
  induction xs with
  | nil => rfl
  | cons a l ih =>
    have ha := h a (List.mem_cons_self a l)
    simp only [List.map_cons, emod12_id ha.1 ha.2,
      ih (fun x hx => h x (List.mem_cons_of_mem a hx))]

/-! ### `calculate_intervals` lemmas -/

lemma ci_nil : calculate_intervals [] = [] := rfl

lemma ci_singleton (x : Int) : calculate_intervals [x] = [] := rfl

lemma ci_cons (x y : Int) (l : List Int) :
    calculate_intervals (x :: y :: l) =
      ((y - x) % 12) :: calculate_intervals (y :: l) := rfl

lemma ci_mem_bounds {v : List Int} {y : Int}
    (h : y ∈ calculate_intervals v) : 0 ≤ y ∧ y < 12 := by
  obtain ⟨p, _, rfl⟩ := List.mem_map.mp h
  exact ⟨emod12_nonneg _, emod12_lt _⟩

lemma ci_length (v : List Int) :
    (calculate_intervals v).length = v.length - 1 := by
  simp [calculate_intervals, List.length_zip]

lemma ci_map_emod : (w : List Int) →
    calculate_intervals (w.map (fun x => x % 12)) = calculate_intervals w
  | [] => rfl
  | [_] => rfl
  | x :: y :: l => by
    have ih := ci_map_emod (y :: l)
    simp only [List.map_cons] at ih ⊢
    rw [ci_cons, ci_cons, ih, Int.sub_emod, Int.emod_emod_of_dvd _ (dvd_refl 12),
      Int.emod_emod_of_dvd _ (dvd_refl 12), ← Int.sub_emod]

lemma ci_map_add : (w : List Int) → (i : Int) →
    calculate_intervals (w.map (fun x => x + i)) = calculate_intervals w
  | [], _ => rfl
  | [_], _ => rfl
  | x :: y :: l, i => by
    have ih := ci_map_add (y :: l) i
    simp only [List.map_cons] at ih ⊢
    rw [ci_cons, ci_cons, ih]
    congr 1
    ring_nf

/-! ### `cumsum` lemmas -/

lemma cumsumFrom_lb : (l : List Int) → (acc : Int) →
    (∀ x ∈ l, 0 ≤ x) → ∀ s ∈ cumsumFrom acc l, acc ≤ s
  | [], _, _ => by intro s hs; simp [cumsumFrom] at hs
  | x :: xs, acc, h => by
    intro s hs
    have hx : 0 ≤ x := h x (List.mem_cons_self x xs)
    simp only [cumsumFrom, List.mem_cons] at hs
    rcases hs with rfl | hs
    · linarith
    · have := cumsumFrom_lb xs (acc + x)
        (fun y hy => h y (List.mem_cons_of_mem x hy)) s hs
      linarith

lemma cumsumFrom_ub : (l : List Int) → (acc : Int) →
    (∀ x ∈ l, 0 ≤ x) → ∀ s ∈ cumsumFrom acc l, s ≤ acc + l.sum
  | [], _, _ => by intro s hs; simp [cumsumFrom] at hs
  | x :: xs, acc, h => by
    intro s hs
    have hsum : 0 ≤ xs.sum :=
      List.sum_nonneg (fun y hy => h y (List.mem_cons_of_mem x hy))
    simp only [cumsumFrom, List.mem_cons] at hs
    rcases hs with rfl | hs
    · simp only [List.sum_cons]; linarith
    · have := cumsumFrom_ub xs (acc + x)
        (fun y hy => h y (List.mem_cons_of_mem x hy)) s hs
      simp only [List.sum_cons]
      linarith

lemma cumsumFrom_last_mem : (l : List Int) → (acc : Int) → l ≠ [] →
    acc + l.sum ∈ cumsumFrom acc l
  | [], _, h => absurd rfl h
  | [x], acc, _ => by simp [cumsumFrom]
  | x :: y :: xs, acc, _ => by
    have ih := cumsumFrom_last_mem (y :: xs) (acc + x) (by simp)
    simp only [cumsumFrom, List.mem_cons, List.sum_cons] at ih ⊢
    right
    rcases ih with h | h
    · left; linarith [h];
    · right
      have : acc + (x + (y + xs.sum)) = acc + x + (y + xs.sum) := by ring
      rw [this]
      exact h

lemma cumsumFrom_sorted : (l : List Int) → (acc : Int) →
    (∀ x ∈ l, 0 ≤ x) → List.Sorted (fun a b => a ≤ b) (acc :: cumsumFrom acc l)
  | [], _, _ => by simp [cumsumFrom]
  | x :: xs, acc, h => by
    have hx : 0 ≤ x := h x (List.mem_cons_self x xs)
    have ih := cumsumFrom_sorted xs (acc + x)
      (fun y hy => h y (List.mem_cons_of_mem x hy))
    simp only [cumsumFrom]
    rw [List.sorted_cons]
    refine ⟨?_, ih⟩
    intro b hb
    simp only [List.mem_cons] at hb
    rcases hb with rfl | hb
    · linarith
    · have := cumsumFrom_lb xs (acc + x)
        (fun y hy => h y (List.mem_cons_of_mem x hy)) b hb
      linarith

/-! ### `pyIndexGet` and `mapPy` lemmas -/

lemma pyIndexGet_ok {α : Type} (xs : List α) (i : Int) (h0 : 0 ≤ i)
    (h1 : i.toNat < xs.length) :
    pyIndexGet xs i = .ok (xs.get ⟨i.toNat, h1⟩) := by
  unfold pyIndexGet
  have hneg : ¬ i < 0 := not_lt.mpr h0
  simp only [hneg, if_false]
  rw [dif_pos ⟨h0, h1⟩]

lemma pyIndexGet_exists_ok {α : Type} {xs : List α} {i : Int} (h0 : 0 ≤ i)
    (h1 : i < (xs.length : Int)) : ∃ y, pyIndexGet xs i = .ok y := by
  have h1' : i.toNat < xs.length := by omega
  exact ⟨_, pyIndexGet_ok xs i h0 h1'⟩

lemma pyIndexGet_err {α : Type} (xs : List α) (i : Int) (h0 : 0 ≤ i)
    (h1 : (xs.length : Int) ≤ i) : pyIndexGet xs i = .error .indexError := by
  unfold pyIndexGet
  have hneg : ¬ i < 0 := not_lt.mpr h0
  simp only [hneg, if_false]
  rw [dif_neg]
  intro hc
  omega

lemma pyIndexGet_mem {α : Type} {xs : List α} {i : Int} {y : α}
    (h : pyIndexGet xs i = .ok y) : y ∈ xs := by
  unfold pyIndexGet at h
  by_cases hc : 0 ≤ (if i < 0 then i + xs.length else i) ∧
      (if i < 0 then i + xs.length else i).toNat < xs.length
  · rw [dif_pos hc] at h
    cases h
    exact List.get_mem _ _ _
  · rw [dif_neg hc] at h
    cases h

lemma mapPy_ok_of_all {α β : Type} (f : α → Py β) : (l : List α) →
    (∀ x ∈ l, ∃ y, f x = .ok y) → ∃ ys, mapPy f l = .ok ys
  | [], _ => ⟨[], rfl⟩
  | x :: xs, h => by
    obtain ⟨y, hy⟩ := h x (List.mem_cons_self x xs)
    obtain ⟨ys, hys⟩ := mapPy_ok_of_all f xs
      (fun a ha => h a (List.mem_cons_of_mem x ha))
    exact ⟨y :: ys, by simp [mapPy, hy, hys]⟩

lemma mapPy_err_of_mem {α β : Type} (f : α → Py β) : (l : List α) → {x : α} →
    x ∈ l → (∀ y, f x ≠ .ok y) → ∀ ys, mapPy f l ≠ .ok ys
  | [], _, hx, _, _ => by simp at hx
  | a :: xs, x, hx, hfx, ys => by
    simp only [List.mem_cons] at hx
    intro hok
    unfold mapPy at hok
    rcases hx with rfl | hx
    · cases hfa : f x with
      | error e => rw [hfa] at hok; simp at hok
      | ok y => exact hfx y hfa
    · cases hfa : f a with
      | error e => rw [hfa] at hok; simp at hok
      | ok y =>
        rw [hfa] at hok
        cases hrest : mapPy f xs with
        | error e => rw [hrest] at hok; simp at hok
        | ok zs => exact mapPy_err_of_mem f xs hx hfx zs hrest

lemma mapPy_ok_spec {α β : Type} (f : α → Py β) : (l : List α) → (ys : List β) →
    mapPy f l = .ok ys →
    ys.length = l.length ∧
      ∀ i (hi : i < l.length) (hy : i < ys.length),
        f (l.get ⟨i, hi⟩) = .ok (ys.get ⟨i, hy⟩)
  | [], ys, h => by
    simp only [mapPy] at h
    cases h
    exact ⟨rfl, by intro i hi; simp at hi⟩
  | x :: xs, ys, h => by
    unfold mapPy at h
    cases hfx : f x with
    | error e => rw [hfx] at h; simp at h
    | ok y =>
      rw [hfx] at h
      cases hrest : mapPy f xs with
      | error e => rw [hrest] at h; simp at h
      | ok zs =>
        rw [hrest] at h
        cases h
        obtain ⟨hlen, hget⟩ := mapPy_ok_spec f xs zs hrest
        refine ⟨by simp [hlen], ?_⟩
        intro i hi hy
        cases i with
        | zero => simpa using hfx
        | succ j =>
          simp only [List.get_cons_succ]
          exact hget j (by simpa using hi) (by simpa using hy)

/-! ### `PitchSet.init` structure lemmas -/

lemma init_fields {xs : List Int} {p : PitchSet} (h : PitchSet.init xs = .ok p) :
    p.values = xs.map (fun v => v % 12) ∧
    p.interval_values = calculate_intervals p.values ∧
    p.structure_values = 0 :: cumsum p.interval_values ∧
    p.third = PitchSet.init_third p.structure_values ∧
    p.name = PitchSet.init_name p.tonic p.interval_values p.notes ∧
    p.values ≠ [] ∧
    p.tonic ∈ NOTES ∧
    mapPy (fun v => pyIndexGet NOTES v) p.values = .ok p.notes := by
  simp only [PitchSet.init] at h
  split at h
  · exact absurd h (by simp)
  · rename_i v0 hv0
    split at h
    · exact absurd h (by simp)
    · rename_i tonic htonic
      split at h
      · exact absurd h (by simp)
      · rename_i notes hnotes
        split at h
        · exact absurd h (by simp)
        · rename_i intervals hintervals
          split at h
          · exact absurd h (by simp)
          · rename_i structure_names hsn
            have hvalne : List.map (fun v => v % 12) xs ≠ [] := by
              intro hc
              rw [hc] at hv0
              rw [show pyIndexGet ([] : List Int) 0 = .error .indexError from rfl] at hv0
              cases hv0
            cases h
            exact ⟨rfl, rfl, rfl, rfl, rfl, hvalne, pyIndexGet_mem htonic, hnotes⟩

/-- Every one-element input dies in `PitchSet.__init__`: the empty
interval tuple makes `np.cumsum` produce a float64 array and the
`structure` comprehension then indexes a list by `numpy.float64`. -/
lemma init_singleton (n : Int) : PitchSet.init [n] =
    .error (.typeError ("list indices must be integers or slices, not numpy.float64")) := by
  obtain ⟨t, ht⟩ := @pyIndexGet_exists_ok _ NOTES _ (emod12_nonneg n)
    (by rw [show (NOTES.length : Int) = 12 from rfl]; exact emod12_lt n)
  simp only [PitchSet.init, List.map_cons, List.map_nil]
  rw [show pyIndexGet [n % 12] 0 = .ok (n % 12) from
      pyIndexGet_ok [n % 12] 0 le_rfl (by simp)]
  simp only [mapPy, ht, ci_singleton, List.isEmpty_nil, if_true]

lemma init_nil : PitchSet.init [] = .error .indexError := rfl

/-- Success characterization of the attribute construction: it
completes exactly when there are at least two values (one value makes
the float64 `structure_values` raise `TypeError`, zero makes
`values[0]` raise `IndexError`) and the total of the consecutive
intervals stays within the 13-entry `INTERVALS` table (otherwise the
`structure` comprehension raises `IndexError`). -/
lemma init_ok_iff (xs : List Int) :
    (∃ p, PitchSet.init xs = .ok p) ↔
      2 ≤ xs.length ∧
        (calculate_intervals (xs.map (fun v => v % 12))).sum ≤ 12 := by
  cases xs with
  | nil =>
    constructor
    · rintro ⟨p, hp⟩
      rw [init_nil] at hp
      cases hp
    · rintro ⟨h2, _⟩
      simp at h2
  | cons a rest =>
    cases rest with
    | nil =>
      constructor
      · rintro ⟨p, hp⟩
        rw [init_singleton] at hp
        cases hp
      · rintro ⟨h2, _⟩
        simp at h2
    | cons b rest2 =>
      have hlen2 : 2 ≤ (a :: b :: rest2).length := by simp
      have hv0 : pyIndexGet ((a :: b :: rest2).map (fun v => v % 12)) 0 =
          .ok (a % 12) :=
        pyIndexGet_ok _ 0 le_rfl (by simp)
      obtain ⟨t, ht⟩ := @pyIndexGet_exists_ok _ NOTES _ (emod12_nonneg a)
        (by rw [show (NOTES.length : Int) = 12 from rfl]; exact emod12_lt a)
      obtain ⟨ns, hns⟩ := mapPy_ok_of_all (fun v => pyIndexGet NOTES v)
        ((a :: b :: rest2).map (fun v => v % 12))
        (fun x hx => pyIndexGet_exists_ok (map_emod12_bounds hx).1
          (by rw [show (NOTES.length : Int) = 12 from rfl]
              exact (map_emod12_bounds hx).2))
      obtain ⟨iv, hiv⟩ := mapPy_ok_of_all (fun i => pyIndexGet INTERVALS i)
        (calculate_intervals ((a :: b :: rest2).map (fun v => v % 12)))
        (fun x hx => pyIndexGet_exists_ok (ci_mem_bounds hx).1
          (by rw [show (INTERVALS.length : Int) = 13 from rfl]
              exact lt_trans (ci_mem_bounds hx).2 (by norm_num)))
      have hcibounds : ∀ x ∈ calculate_intervals
          ((a :: b :: rest2).map (fun v => v % 12)), 0 ≤ x :=
        fun x hx => (ci_mem_bounds hx).1
      have hnonempty : calculate_intervals
          ((a :: b :: rest2).map (fun v => v % 12)) ≠ [] := by
        intro hc
        have := ci_length ((a :: b :: rest2).map (fun v => v % 12))
        rw [hc] at this
        simp at this
      have hempty_false : (calculate_intervals
          ((a :: b :: rest2).map (fun v => v % 12))).isEmpty = false := by
        cases hci : calculate_intervals ((a :: b :: rest2).map (fun v => v % 12)) with
        | nil => exact absurd hci hnonempty
        | cons u l => rfl
      simp only [PitchSet.init]
      simp only [hv0, ht, hns, hiv, hempty_false, Bool.false_eq_true, if_false]
      constructor
      · rintro ⟨p, hp⟩
        refine ⟨hlen2, ?_⟩
        split at hp
        · cases hp
        · rename_i sn hsn
          by_contra hgt
          push_neg at hgt
          have hsum_nonneg : 0 ≤ (calculate_intervals
              ((a :: b :: rest2).map (fun v => v % 12))).sum :=
            List.sum_nonneg hcibounds
          have hmem : (calculate_intervals
                ((a :: b :: rest2).map (fun v => v % 12))).sum ∈
              (0 : Int) :: cumsum (calculate_intervals
                ((a :: b :: rest2).map (fun v => v % 12))) := by
            right
            have := cumsumFrom_last_mem
              (calculate_intervals ((a :: b :: rest2).map (fun v => v % 12)))
              0 hnonempty
            simpa [cumsum] using this
          have herr := pyIndexGet_err INTERVALS
            ((calculate_intervals ((a :: b :: rest2).map (fun v => v % 12))).sum)
            hsum_nonneg
            (by rw [show (INTERVALS.length : Int) = 13 from rfl]; omega)
          exact mapPy_err_of_mem (fun i => pyIndexGet INTERVALS i) _ hmem
            (fun y hy => by
              simp only [herr] at hy
              exact Except.noConfusion hy) sn hsn
      · rintro ⟨_, hsum⟩
        obtain ⟨sn, hsn⟩ := mapPy_ok_of_all (fun i => pyIndexGet INTERVALS i)
          ((0 : Int) :: cumsum (calculate_intervals
            ((a :: b :: rest2).map (fun v => v % 12))))
          (by
            intro s hs
            have hs0 : 0 ≤ s := by
              rcases List.mem_cons.mp hs with rfl | hs'
              · exact le_rfl
              · exact cumsumFrom_lb _ 0 hcibounds s hs'
            have hs12 : s ≤ 12 := by
              rcases List.mem_cons.mp hs with rfl | hs'
              · norm_num
              · have := cumsumFrom_ub _ 0 hcibounds s hs'
                simp only [zero_add] at this
                omega
            exact pyIndexGet_exists_ok hs0
              (by rw [show (INTERVALS.length : Int) = 13 from rfl]; omega))
        rw [hsn]
        exact ⟨_, rfl⟩

lemma ci_get (v : List Int) (i : Nat) (hi : i < (calculate_intervals v).length)
    (h1 : i + 1 < v.length) (h0 : i < v.length) :
    (calculate_intervals v).get ⟨i, hi⟩ =
      (v.get ⟨i + 1, h1⟩ - v.get ⟨i, h0⟩) % 12 := by
  simp only [calculate_intervals, List.get_eq_getElem, List.getElem_map,
    List.getElem_zip, List.getElem_tail]

/-! ### String containment lemmas -/

lemma listStarts_refl : ∀ l : List Char, listStarts l l = true
  | [] => rfl
  | a :: as => by simp [listStarts, listStarts_refl as]

lemma listHasSub_suffix : ∀ (a b : List Char), listHasSub (a ++ b) b = true
  | [], b => by
    cases b with
    | nil => rfl
    | cons x xs => simp [listHasSub, listStarts_refl]
  | a :: as, b => by simp [listHasSub, listHasSub_suffix as b]

lemma strContains_suffix (a b : String) : strContains (a ++ b) b = true := by
  have : (a ++ b).toList = a.toList ++ b.toList := by
    simp [String.toList]
  simp [strContains, this, listHasSub_suffix]

/-! ### Claims -/

/-- C1: for every PitchSet successfully constructed, the stored
`values` are the input reduced element-wise mod 12 (each in `[0,12)`)
and `interval_values[i] = (values[i+1] - values[i]) mod 12` for every
`i`, each interval lying in `[0,12)`. -/
theorem claim_C1 :
    ∀ (xs : List Int) (p : PitchSet), PitchSet.init xs = .ok p →
      p.values = xs.map (fun v => v % 12) ∧
      (∀ v ∈ p.values, 0 ≤ v ∧ v < 12) ∧
      p.interval_values.length = p.values.length - 1 ∧
      (∀ (i : Nat) (h1 : i + 1 < p.values.length) (h0 : i < p.values.length)
        (hiv : i < p.interval_values.length),
        p.interval_values.get ⟨i, hiv⟩ =
          (p.values.get ⟨i + 1, h1⟩ - p.values.get ⟨i, h0⟩) % 12) ∧
      (∀ x ∈ p.interval_values, 0 ≤ x ∧ x < 12) := by
  intro xs p h
  obtain ⟨hval, hiv, _, _, _, _, _, _⟩ := init_fields h
  refine ⟨hval, ?_, ?_, ?_, ?_⟩
  · intro v hv
    rw [hval] at hv
    exact map_emod12_bounds hv
  · rw [hiv, ci_length]
  · intro i h1 h0 hivlt
    rw [List.get_of_eq hiv ⟨i, hivlt⟩]
    exact ci_get p.values i _ h1 h0
  · intro x hx
    rw [hiv] at hx
    exact ci_mem_bounds hx

/-- C1 witness: the theorem applied to the concrete input
`PitchSet([14, -5])`. -/
theorem claim_C1_witness :
    psSampleC1.values = [(14 : Int), -5].map (fun v => v % 12) :=
  (claim_C1 [14, -5] psSampleC1 (by decide)).1

/-- C2 (recording the code bug): construction does **not** succeed on
every non-empty integer sequence. `PitchSet([5])` dies with the
float64 `TypeError` (the spec promises a one-element set), and
`PitchSet([0, 11, 10])` dies with `IndexError` because its
cumulative structure value 22 overruns the 13-entry `INTERVALS`
table; the type errors the claim does describe are raised as
stated. -/
theorem claim_C2 :
    PitchSet.init [5] =
      .error (.typeError ("list indices must be integers or slices, not numpy.float64")) ∧
    PitchSet.init [0, 11, 10] = .error .indexError ∧
    (∀ n : Int, PitchSet.init [n] =
      .error (.typeError ("list indices must be integers or slices, not numpy.float64"))) ∧
    PitchSet.build (.other ("float")) =
      .error (.typeError
        "Valid object types to build a PitchSet are: (int, tuple, list, numpy.ndarray, PitchSet)") ∧
    PitchSet.build (.seq [.int 0, .nonInt ("None")]) =
      .error (.typeError ("A PitchSet can only be constructed from integers.")) :=
  ⟨init_singleton 5, rfl, init_singleton, rfl, rfl⟩

/-- C3: `Tonality("A", mode="VI")` with the default diatonic scale
type builds the A natural minor scale `[9, 11, 0, 2, 4, 5, 7]`. -/
theorem claim_C3 :
    scaleValuesOf? (Tonality.init ("A") "diatonic" "VI") =
      some [9, 11, 0, 2, 4, 5, 7] := rfl

/-- C5: `PitchSet([0,4,7])` is named tonic `"C"` plus the major-triad
suffix of the quality table (the empty suffix), `PitchSet([0,3,7])`
tonic plus the minor suffix `"m"`, and any constructed PitchSet whose
interval shape misses the table gets the "unknown set" fallback name
instead of an error (e.g. `[0,1,6]`). -/
theorem claim_C5 :
    nameOf? (PitchSet.init [0, 4, 7]) = some ("C" ++ "") ∧
    pitchsetNameLookup [4, 3] = some ("") ∧
    nameOf? (PitchSet.init [0, 3, 7]) = some ("C" ++ "m") ∧
    pitchsetNameLookup [3, 4] = some ("m") ∧
    nameOf? (PitchSet.init [0, 1, 6]) =
      some ("Unknown set: " ++ pyStrListRepr ["C", "Db", "F#"]) ∧
    ∀ (xs : List Int) (p : PitchSet), PitchSet.init xs = .ok p →
      pitchsetNameLookup p.interval_values = none →
      p.name = "Unknown set: " ++ pyStrListRepr p.notes := by
  refine ⟨rfl, rfl, rfl, rfl, rfl, ?_⟩
  intro xs p h hnone
  obtain ⟨_, _, _, _, hname, _⟩ := init_fields h
  rw [hname]
  simp [PitchSet.init_name, hnone]

/-- C5 witness: the fallback clause applied to the concrete input
`PitchSet([0, 1, 6])`. -/
theorem claim_C5_witness :
    psSampleC5.name = "Unknown set: " ++ pyStrListRepr psSampleC5.notes :=
  claim_C5.2.2.2.2.2 [0, 1, 6] psSampleC5 (by decide) (by decide)

/-- C7: the derived `third` is "minor" when 3 occurs among the
cumulative structure values, "major" when 4 occurs and 3 does not,
and "suspended" otherwise; 3 wins over 4, and the structure list is
sorted, so when both occur the 3 indeed sits at the earlier index. -/
theorem claim_C7 :
    ∀ (xs : List Int) (p : PitchSet), PitchSet.init xs = .ok p →
      ((3 : Int) ∈ p.structure_values → p.third = "minor") ∧
      ((3 : Int) ∉ p.structure_values → (4 : Int) ∈ p.structure_values →
        p.third = "major") ∧
      ((3 : Int) ∉ p.structure_values → (4 : Int) ∉ p.structure_values →
        p.third = "suspended") ∧
      List.Sorted (fun a b => a ≤ b) p.structure_values := by
  intro xs p h
  obtain ⟨_, hiv, hsv, hthird, _⟩ := init_fields h
  refine ⟨?_, ?_, ?_, ?_⟩
  · intro h3
    rw [hthird]
    simp [PitchSet.init_third, h3]
  · intro h3 h4
    rw [hthird]
    simp [PitchSet.init_third, h3, h4]
  · intro h3 h4
    rw [hthird]
    simp [PitchSet.init_third, h3, h4]
  · rw [hsv]
    exact cumsumFrom_sorted p.interval_values 0
      (fun x hx => by rw [hiv] at hx; exact (ci_mem_bounds hx).1)

/-- C7 witness: the theorem applied to the concrete input
`PitchSet([0, 3, 7])`, whose structure contains 3. -/
theorem claim_C7_witness : psSampleC7.third = "minor" :=
  (claim_C7 [0, 3, 7] psSampleC7 (by decide)).1 (by decide)

/-- C8 counterexample: the inversion range error is raised, but its
message is the fixed string "Inversion out of range", which does not
identify the offending value (here 3), contradicting the claim that
every range violation message identifies the offending value. -/
theorem claim_C8_counterexample :
    invert [0, 4, 7] 3 = .error (.valueError ("Inversion out of range")) ∧
    strContains ("Inversion out of range") "3" = false :=
  ⟨rfl, rfl⟩

/-- C8 (amended): every range violation fails immediately — inversion
out of bounds raises `ValueError` with the fixed message "Inversion
out of range" (which does not name the value), an unknown mode numeral
raises the `ValueError` of the `DEGREES` tuple lookup, and an
out-of-range chord degree raises `ValueError`; only the chord-degree
message "Invalid degree: ..." identifies the offending value. -/
theorem claim_C8 :
    (∀ (v : List Int) (k : Int), (k.natAbs : Int) > (v.length : Int) - 1 →
      invert v k = .error (.valueError ("Inversion out of range"))) ∧
    Tonality.init ("C") "diatonic" "VIII" =
      .error (.valueError ("tuple.index(x): x not in tuple")) ∧
    (∀ (t : Tonality) (size : Int),
      Tonality.chords t (.one (.str ("VIII"))) size =
        .error (.valueError ("tuple.index(x): x not in tuple"))) ∧
    (∀ (t : Tonality) (size : Int) (d : Int), d < 1 ∨ 7 < d →
      Tonality.chords t (.one (.int d)) size =
        .error (.valueError ("Invalid degree: " ++ toString d)) ∧
      strContains ("Invalid degree: " ++ toString d) (toString d) = true) := by
  refine ⟨?_, rfl, ?_, ?_⟩
  · intro v k h
    unfold invert
    rw [if_pos h]
  · intro t size
    have hd : Tonality.degreeChord t.scale.values size (.str ("VIII")) =
        .error (.valueError ("tuple.index(x): x not in tuple")) := by
      simp only [Tonality.degreeChord,
        show pyTupleIndex DEGREES ("VIII") =
          (.error (.valueError ("tuple.index(x): x not in tuple")) : Py Int) from rfl]
    simp only [Tonality.chords, Tonality.chordsGo, mapPy, hd]
  · intro t size d hd
    constructor
    · have hcond : d - 1 < 0 ∨ 7 ≤ d - 1 := by omega
      have hchord : Tonality.degreeChord t.scale.values size (.int d) =
          .error (.valueError ("Invalid degree: " ++ toString d)) := by
        simp only [Tonality.degreeChord, if_pos hcond, degreeRepr]
      simp only [Tonality.chords, Tonality.chordsGo, mapPy, hchord]
    · exact strContains_suffix ("Invalid degree: ") (toString d)

/-- C8 witness: the amended theorem applied to concrete range
violations (`invert` by 5 on a 3-note set, chord degree 8). -/
theorem claim_C8_witness :
    invert [0, 4, 7] 5 = .error (.valueError ("Inversion out of range")) ∧
    Tonality.chords tonSampleC8 (.one (.int 8)) 4 =
      .error (.valueError ("Invalid degree: " ++ toString (8 : Int))) :=
  ⟨claim_C8.1 [0, 4, 7] 5 (by norm_num),
   (claim_C8.2.2.2 tonSampleC8 4 8 (by norm_num)).1⟩

/-- C9 (recording the code bug): shifting a PitchSet by an integer
interval never yields a PitchSet at all — `PitchSet(i)` inside
`__add__`/`__sub__` is a one-element set, whose construction always
raises the float64 `TypeError`, so the claimed interval symmetry
`(p + i).values = (p - (12 - i)).values` has no instance; shown
concretely on the C major scale with `i = 7`. -/
theorem claim_C9 :
    Except.bind (PitchSet.init [0, 2, 4, 5, 7, 9, 11])
        (fun p => PitchSet.add p (.int 7)) =
      .error (.typeError ("list indices must be integers or slices, not numpy.float64")) ∧
    Except.bind (PitchSet.init [0, 2, 4, 5, 7, 9, 11])
        (fun p => PitchSet.sub p (.int 5)) =
      .error (.typeError ("list indices must be integers or slices, not numpy.float64")) ∧
    ∀ (p : PitchSet) (i : Int),
      PitchSet.add p (.int i) =
        .error (.typeError ("list indices must be integers or slices, not numpy.float64")) ∧
      PitchSet.sub p (.int i) =
        .error (.typeError ("list indices must be integers or slices, not numpy.float64")) := by
  refine ⟨rfl, rfl, ?_⟩
  intro p i
  constructor
  · simp only [PitchSet.add, PitchSet.build, init_singleton]
  · simp only [PitchSet.sub, PitchSet.build, init_singleton]

/-- C10: the empty input passes the type validation but dies with
`IndexError` when `values[0]` is read for the tonic, so every
PitchSet that exists has at least one value and a tonic drawn from
the note table. -/
theorem claim_C10 :
    PitchSet.build (.seq []) = .error .indexError ∧
    ∀ (b : Builder) (p : PitchSet), PitchSet.build b = .ok p →
      1 ≤ p.values.length ∧ p.tonic ∈ NOTES := by
  constructor
  · rfl
  · intro b p hb
    have hinit : ∃ xs, PitchSet.init xs = .ok p := by
      cases b with
      | int n => exact ⟨[n], hb⟩
      | seq xs =>
        simp only [PitchSet.build] at hb
        split at hb
        · exact ⟨_, hb⟩
        · exact absurd hb (by simp)
      | pitchset q => exact ⟨q.values, hb⟩
      | other tag => exact absurd hb (by simp [PitchSet.build])
    obtain ⟨xs, hxs⟩ := hinit
    obtain ⟨_, _, _, _, _, hne, htonic, _⟩ := init_fields hxs
    exact ⟨List.length_pos.mpr hne, htonic⟩

/-- C10 witness: the theorem applied to the concrete input
`PitchSet([0, 4])`. -/
theorem claim_C10_witness :
    1 ≤ psSampleC10.values.length ∧ psSampleC10.tonic ∈ NOTES :=
  claim_C10.2 (.seq [.int 0, .int 4]) psSampleC10 (by decide)

/-- C4: `Tonality("C").chords("I", size=4)` returns the single
unwrapped PitchSet `[0, 4, 7, 11]` (Cmaj7); in general a request for
exactly one degree yields a single PitchSet, while a request for a
sequence of two or more degrees yields a list of PitchSets, of the
same length and with the chord of the i-th requested degree at
position i. -/
theorem claim_C4 :
    singleValuesOf? (Except.bind (Tonality.init ("C") "diatonic" "I")
        (fun t => Tonality.chords t (.one (.str ("I"))) 4)) =
      some [0, 4, 7, 11] ∧
    (∀ (t : Tonality) (d : Degree) (size : Int) (r : ChordsResult),
      Tonality.chords t (.one d) size = .ok r → r.isSingle = true) ∧
    (∀ (t : Tonality) (ds : List Degree) (size : Int) (r : ChordsResult),
      Tonality.chords t (.many ds) size = .ok r → 2 ≤ ds.length →
        r.isSingle = false) ∧
    (∀ (t : Tonality) (ds : List Degree) (size : Int) (ps : List PitchSet),
      Tonality.chords t (.many ds) size = .ok (.multiple ps) →
        ps.length = ds.length ∧
        ∀ (i : Nat) (hi : i < ds.length) (hp : i < ps.length),
          Tonality.degreeChord t.scale.values size (ds.get ⟨i, hi⟩) =
            .ok (ps.get ⟨i, hp⟩)) := by
  refine ⟨rfl, ?_, ?_, ?_⟩
  · intro t d size r h
    simp only [Tonality.chords, Tonality.chordsGo, mapPy] at h
    cases hdc : Tonality.degreeChord t.scale.values size d with
    | error e => rw [hdc] at h; exact absurd h (by simp)
    | ok c =>
      rw [hdc] at h
      simp only at h
      cases h
      rfl
  · intro t ds size r h h2
    simp only [Tonality.chords] at h
    cases hgo : Tonality.chordsGo t.scale.values size ds with
    | error e => rw [hgo] at h; exact absurd h (by simp)
    | ok cs =>
      rw [hgo] at h
      have hlen : cs.length = ds.length := (mapPy_ok_spec _ ds cs hgo).1
      match cs, hlen with
      | [], hlen => simp at h; cases h; rfl
      | [c], hlen => rw [← hlen] at h2; simp at h2
      | c1 :: c2 :: rest, hlen => simp at h; cases h; rfl
  · intro t ds size ps h
    simp only [Tonality.chords] at h
    cases hgo : Tonality.chordsGo t.scale.values size ds with
    | error e => rw [hgo] at h; exact absurd h (by simp)
    | ok cs =>
      rw [hgo] at h
      obtain ⟨hlen, hget⟩ := mapPy_ok_spec _ ds cs hgo
      have hps : cs = ps := by
        match cs, h with
        | [], h => simp at h; exact h.symm
        | [c], h => simp at h
        | c1 :: c2 :: rest, h => simp at h; exact h
      subst hps
      exact ⟨hlen, hget⟩

/-- C4 witness: the shape clauses applied to concrete requests on the
sample tonality (one degree gives a single PitchSet, two degrees give
a two-element list with each requested chord in place). -/
theorem claim_C4_witness :
    (ChordsResult.single psSampleC4).isSingle = true ∧
    ([psSampleC4, psSampleC4].length = [Degree.str ("I"), Degree.str ("I")].length) :=
  ⟨claim_C4.2.1 tonSampleC4 (.str ("I")) 4 (.single psSampleC4) (by decide),
   (claim_C4.2.2.2 tonSampleC4 [.str ("I"), .str ("I")] 4 [psSampleC4, psSampleC4]
     (by decide)).1⟩

/-! ### Rotation lemmas for the inversion round trip -/

lemma ci_append2 : (a : List Int) → (m y : Int) → (b : List Int) →
    calculate_intervals ((a ++ [m]) ++ (y :: b)) =
      calculate_intervals (a ++ [m]) ++
        ((y - m) % 12) :: calculate_intervals (y :: b)
  | [], m, y, b => by
    simp [ci_cons, ci_singleton]
  | x :: a', m, y, b => by
    have ih := ci_append2 a' m y b
    cases a' with
    | nil => simp [ci_cons, ci_singleton]
    | cons z a'' =>
      simp only [List.cons_append, ci_cons] at ih ⊢
      rw [ih]

lemma ci_sum_emod : (l : List Int) → (x m : Int) →
    (calculate_intervals (x :: (l ++ [m]))).sum % 12 = (m - x) % 12
  | [], x, m => by
    simp [ci_cons, ci_singleton, Int.emod_emod_of_dvd _ (dvd_refl 12)]
  | y :: l', x, m => by
    have ih := ci_sum_emod l' y m
    simp only [List.cons_append, ci_cons, List.sum_cons]
    rw [Int.add_emod, Int.emod_emod_of_dvd _ (dvd_refl 12), ih, ← Int.add_emod,
      show y - x + (m - y) = m - x by ring]

lemma ci_sum_nonneg (v : List Int) : 0 ≤ (calculate_intervals v).sum :=
  List.sum_nonneg (fun _ hx => (ci_mem_bounds hx).1)

/-- Rotating a list whose consecutive intervals total at most 12
keeps the total at most 12: the rotated total is the cyclic interval
total (a multiple of 12 bounded by the original total plus the wrap
interval) minus the seam interval. -/
lemma rotation_sum_le (v : List Int) (j : Nat) (hj1 : 1 ≤ j) (hj2 : j < v.length)
    (hs : (calculate_intervals v).sum ≤ 12) :
    (calculate_intervals (v.drop j ++ v.take j)).sum ≤ 12 := by
  have htd : v.take j ++ v.drop j = v := List.take_append_drop j v
  have htlen : (v.take j).length = j := by
    rw [List.length_take]; omega
  have hdlen : (v.drop j).length = v.length - j := List.length_drop j v
  have htne : v.take j ≠ [] := by
    intro hc; rw [hc] at htlen; simp at htlen; omega
  have hdne : v.drop j ≠ [] := by
    intro hc; rw [hc] at hdlen; simp at hdlen; omega
  obtain ⟨tx, tb, htx⟩ := List.exists_cons_of_ne_nil htne
  obtain ⟨y, db, hy⟩ := List.exists_cons_of_ne_nil hdne
  rcases List.eq_nil_or_concat (v.take j) with hcon | ⟨ta, tm, hta⟩
  · exact absurd hcon htne
  rcases List.eq_nil_or_concat (v.drop j) with hcon | ⟨da, dm, hda⟩
  · exact absurd hcon hdne
  rw [List.concat_eq_append] at hta hda
  have hv1 : calculate_intervals v =
      calculate_intervals (v.take j) ++
        ((y - tm) % 12) :: calculate_intervals (y :: db) := by
    conv_lhs => rw [← htd, hta, hy]
    rw [ci_append2, ← hta]
  have hw1 : calculate_intervals (v.drop j ++ v.take j) =
      calculate_intervals (v.drop j) ++
        ((tx - dm) % 12) :: calculate_intervals (tx :: tb) := by
    conv_lhs => rw [hda, htx]
    rw [ci_append2, ← hda]
  have hA2 : (calculate_intervals (y :: db)).sum =
      (calculate_intervals (v.drop j)).sum := by rw [← hy]
  have hA1 : (calculate_intervals (tx :: tb)).sum =
      (calculate_intervals (v.take j)).sum := by rw [← htx]
  have hv2 : v = tx :: ((tb ++ da) ++ [dm]) := by
    rw [← htd, htx, hda]
    simp [List.append_assoc]
  have htele : (calculate_intervals v).sum % 12 = (dm - tx) % 12 := by
    have := ci_sum_emod (tb ++ da) tx dm
    rw [← hv2] at this
    exact this
  have hzS : ((tx - dm) % 12 + (calculate_intervals v).sum) % 12 = 0 := by
    rw [Int.add_emod, htele, Int.emod_emod_of_dvd _ (dvd_refl 12), ← Int.add_emod,
      show tx - dm + (dm - tx) = 0 by ring]
    rfl
  have hS_eq : (calculate_intervals v).sum =
      (calculate_intervals (v.take j)).sum +
        ((y - tm) % 12 + (calculate_intervals (v.drop j)).sum) := by
    rw [hv1, List.sum_append, List.sum_cons, hA2]
  have hW_eq : (calculate_intervals (v.drop j ++ v.take j)).sum =
      (calculate_intervals (v.drop j)).sum +
        ((tx - dm) % 12 + (calculate_intervals (v.take j)).sum) := by
    rw [hw1, List.sum_append, List.sum_cons, hA1]
  have h1 : 0 ≤ (calculate_intervals (v.take j)).sum := ci_sum_nonneg _
  have h2 : 0 ≤ (calculate_intervals (v.drop j)).sum := ci_sum_nonneg _
  omega

/-- Rotating by `j` and then by `length - j` restores the list. -/
lemma rot_unrot {α : Type} (v : List α) (j : Nat) (_hj : j ≤ v.length) :
    (v.drop j ++ v.take j).drop (v.length - j) ++
      (v.drop j ++ v.take j).take (v.length - j) = v := by
  have hlen : (v.drop j).length = v.length - j := List.length_drop j v
  rw [← hlen, List.drop_left, List.take_left, List.take_append_drop]

lemma all_isInt_map (l : List Int) : (l.map PyVal.int).all PyVal.isInt = true := by
  rw [List.all_eq_true]
  intro x hx
  obtain ⟨n, _, rfl⟩ := List.mem_map.mp hx
  rfl

lemma pyValInts_map_int (l : List Int) : pyValInts (l.map PyVal.int) = l := by
  induction l with
  | nil => rfl
  | cons a t ih => simp only [List.map_cons, pyValInts, List.filterMap_cons] at ih ⊢; rw [ih]

/-- Feeding an integer array back into the `PitchSet` constructor
passes both isinstance checks and reaches the attribute construction. -/
lemma build_seq_int (l : List Int) :
    PitchSet.build (.seq (l.map PyVal.int)) = PitchSet.init l := by
  simp only [PitchSet.build, all_isInt_map, if_true, pyValInts_map_int]

/-- When the rotated values are in range and their intervals total at
most 12, `PitchSet.init` succeeds and stores them unchanged. -/
lemma init_values_ok (w : List Int) (h2 : 2 ≤ w.length)
    (hb : ∀ x ∈ w, 0 ≤ x ∧ x < 12)
    (hs : (calculate_intervals w).sum ≤ 12) :
    ∃ q, PitchSet.init w = .ok q ∧ q.values = w := by
  have hmap : w.map (fun v => v % 12) = w := map_emod12_of_bounds hb
  obtain ⟨q, hq⟩ := (init_ok_iff w).mpr
    ⟨h2, by rw [ci_map_emod]; exact hs⟩
  refine ⟨q, hq, ?_⟩
  obtain ⟨hval, _⟩ := init_fields hq
  rw [hval, hmap]

/-- The value of a successful `invert`, with the Python slices turned
into `drop`/`take` at a non-negative rotation index. -/
lemma invert_ok_shape (v : List Int) (k : Int)
    (hk : (k.natAbs : Int) ≤ (v.length : Int) - 1) :
    invert v k =
      .ok (v.drop (if 0 ≤ k then k.toNat else v.length - k.natAbs) ++
           v.take (if 0 ≤ k then k.toNat else v.length - k.natAbs)) := by
  unfold invert
  rw [if_neg (not_lt.mpr hk)]
  by_cases h0 : 0 ≤ k
  · simp [pySliceFrom, pySliceTo, h0]
  · simp [pySliceFrom, pySliceTo, h0]

/-- C6: inverting a constructed PitchSet by `k` with `|k| ≤ n-1` and
then inverting the result by `-k` succeeds and restores the original
`values` sequence. -/
theorem claim_C6 :
    ∀ (xs : List Int) (p : PitchSet) (k : Int), PitchSet.init xs = .ok p →
      (k.natAbs : Int) ≤ (p.values.length : Int) - 1 →
      valuesOf? (Except.bind (p.invertSet k) (fun q => q.invertSet (-k))) =
        some p.values := by
  intro xs p k h hk
  obtain ⟨hval, _⟩ := init_fields h
  have hbounds : ∀ x ∈ p.values, 0 ≤ x ∧ x < 12 := by
    intro x hx; rw [hval] at hx; exact map_emod12_bounds hx
  obtain ⟨hlen2', hsum'⟩ := (init_ok_iff xs).mp ⟨p, h⟩
  have hlenv : p.values.length = xs.length := by rw [hval, List.length_map]
  have hlen2 : 2 ≤ p.values.length := by omega
  have hsum : (calculate_intervals p.values).sum ≤ 12 := by rw [hval]; exact hsum'
  have hj_le : (if 0 ≤ k then k.toNat else p.values.length - k.natAbs) ≤
      p.values.length := by
    by_cases h0 : 0 ≤ k <;> simp only [h0, if_true, if_false] <;> omega
  set j : Nat := if 0 ≤ k then k.toNat else p.values.length - k.natAbs with hjdef
  -- the first inversion
  have hw1 : invert p.values k = .ok (p.values.drop j ++ p.values.take j) :=
    invert_ok_shape p.values k hk
  have hb_rot : ∀ x ∈ p.values.drop j ++ p.values.take j, 0 ≤ x ∧ x < 12 := by
    intro x hx
    rcases List.mem_append.mp hx with hx | hx
    · exact hbounds x (List.drop_subset j p.values hx)
    · exact hbounds x (List.take_subset j p.values hx)
  have hsum_rot :
      (calculate_intervals (p.values.drop j ++ p.values.take j)).sum ≤ 12 := by
    by_cases hj0 : j = 0
    · rw [hj0]
      simpa using hsum
    · by_cases hjn : j = p.values.length
      · rw [hjn]
        simp only [List.drop_length, List.take_length, List.nil_append]
        exact hsum
      · exact rotation_sum_le p.values j (by omega) (by omega) hsum
  have hrotlen : (p.values.drop j ++ p.values.take j).length = p.values.length := by
    rw [List.length_append, List.length_drop, List.length_take]
    omega
  obtain ⟨q, hq, hqv⟩ := init_values_ok (p.values.drop j ++ p.values.take j)
    (by omega) hb_rot hsum_rot
  have hinv1 : p.invertSet k = .ok q := by
    simp only [PitchSet.invertSet, hw1, build_seq_int, hq]
  -- the second inversion
  have hqlen : q.values.length = p.values.length := by rw [hqv]; exact hrotlen
  have hk2 : ((-k).natAbs : Int) ≤ (q.values.length : Int) - 1 := by
    rw [hqlen, Int.natAbs_neg]; exact hk
  have hw2 : invert q.values (-k) =
      .ok (q.values.drop (if 0 ≤ -k then (-k).toNat
              else q.values.length - (-k).natAbs) ++
           q.values.take (if 0 ≤ -k then (-k).toNat
              else q.values.length - (-k).natAbs)) :=
    invert_ok_shape q.values (-k) hk2
  have hback : q.values.drop (if 0 ≤ -k then (-k).toNat
          else q.values.length - (-k).natAbs) ++
        q.values.take (if 0 ≤ -k then (-k).toNat
          else q.values.length - (-k).natAbs) = p.values := by
    rcases lt_trichotomy k 0 with hneg | hzero | hpos
    · -- k < 0, so -k > 0 and j = length - |k|; the way back rotates by |k|
      have h1 : (if 0 ≤ -k then (-k).toNat else q.values.length - (-k).natAbs) =
          p.values.length - j := by
        rw [if_pos (by omega)]
        rw [hjdef, if_neg (by omega)]
        omega
      rw [h1, hqv]
      exact rot_unrot p.values j hj_le
    · -- k = 0: both rotations are the identity
      subst hzero
      have hj0 : j = 0 := by rw [hjdef]; simp
      simp only [neg_zero, if_pos le_rfl, Int.toNat_zero, List.drop_zero,
        List.take_zero, List.append_nil]
      rw [hqv, hj0]
      simp
    · -- k > 0, so -k < 0 and j = k; the way back rotates by length - k
      have h1 : (if 0 ≤ -k then (-k).toNat else q.values.length - (-k).natAbs) =
          p.values.length - j := by
        rw [if_neg (by omega), hqlen]
        rw [hjdef, if_pos (by omega)]
        omega
      rw [h1, hqv]
      exact rot_unrot p.values j hj_le
  -- the final construction stores exactly the original values
  obtain ⟨r, hr, hrv⟩ := init_values_ok p.values hlen2 hbounds hsum
  have hinv2 : q.invertSet (-k) = .ok r := by
    simp only [PitchSet.invertSet, hw2, build_seq_int, hback, hr]
  rw [hinv1]
  simp only [Except.bind, hinv2, valuesOf?, hrv]

/-- C6 witness: the round trip applied to `PitchSet([0, 4, 7])`
inverted by 1 and back. -/
theorem claim_C6_witness :
    valuesOf? (Except.bind (psSampleC6.invertSet 1)
        (fun q => q.invertSet (-1))) = some psSampleC6.values :=
  claim_C6 [0, 4, 7] psSampleC6 1 (by decide) (by decide)

end TheRealScript
